import Mathlib

/-!
Verification of the mdbook-qr marker-resolution and safe-substitution core.

The definitions below are a shallow embedding of the Rust sources:
* `src/html.rs`   — the fence / inline-code scanner (`replace_markers_outside_code`)
* `src/util.rs`   — sizing, slug and path helpers
* `src/config.rs` — profile merging and collection

Strings are modelled as `List Char` in the scanner and path code (the Rust
code walks `&str` character-by-character; markers are ASCII per the source
comment).  Machine integers (`u32`, `u8`) are modelled as `Nat`: none of the
embedded code performs arithmetic that can overflow (`u32` sizes are only
compared against 0, colour channels are produced from at most two hex digits).
-/

namespace MdbookQr

/-- Abbreviation: the character list of a string literal. -/
def cs (s : String) : List Char := s.toList

/-! ### Generic list helpers shared by the embedding -/

/-- Split off the longest run of character `ch` at the head of the list,
returning `(run, remainder)`.  This models the run-counting loops in
`parse_fence` and `replace_outside_inline_code` (src/html.rs). -/
def takeRun (ch : Char) : List Char → List Char × List Char
  | [] => ([], [])
  | c :: rest =>
    if c = ch then
      let p := takeRun ch rest
      (c :: p.1, p.2)
    else ([], c :: rest)

/-- Termination measure for `rocGo` below (needed before its definition). -/
theorem takeRun_snd_length_le (ch : Char) (l : List Char) :
    (takeRun ch l).2.length ≤ l.length := by
  induction l with
  | nil => simp [takeRun]
  | cons c rest ih =>
    by_cases h : c = ch <;> simp [takeRun, h]
    exact Nat.le_succ_of_le ih



/-- Rust's `str::split_inclusive('\n')`: split into chunks, each chunk keeping
its trailing separator; the final chunk may lack one; the empty string yields
no chunks. -/
def splitInclusive (sep : Char) : List Char → List (List Char)
  | [] => []
  | c :: rest =>
    if c = sep then [c] :: splitInclusive sep rest
    else
      match splitInclusive sep rest with
      | [] => [[c]]
      | l :: ls => (c :: l) :: ls


/-- The body/suffix decomposition of one physical line: `(line without its
trailing newline, the newline if present)` (src/html.rs lines 103–107). -/
def stripNl (l : List Char) : List Char × List Char :=
  if l.getLast? = some '\n' then (l.dropLast, ['\n']) else (l, [])



/-! ### `src/html.rs`: the fence / inline-code scanner -/

/-- `parse_fence` (src/html.rs lines 19–46): detect a fence-delimiter line and
return `(fence char, run length, info string)`.  Up to three leading spaces
are allowed; the delimiter run must be at least three backticks or tildes. -/
def parse_fence (line : List Char) : Option (Char × Nat × List Char) :=
  let trimmedLead :=
    match line with
    | ' ' :: ' ' :: ' ' :: r => r
    | ' ' :: ' ' :: r => r
    | ' ' :: r => r
    | l => l
  match trimmedLead with
  | [] => none
  | first :: _ =>
    if first = '`' ∨ first = '~' then
      let p := takeRun first trimmedLead
      if 3 ≤ p.1.length then some (first, p.1.length, p.2) else none
    else none

/-- `replace_outside_inline_code`, inner loop (src/html.rs lines 49–97).
State: `none` = not inside an inline code span, `some k` = inside a span
opened by a run of `k` backticks.  Backtick runs are copied verbatim; a run
of exactly the open count closes the span; the marker is replaced only when
no span is open.  (The Rust loop does not terminate on an empty marker, so
the marker-match branch additionally requires a non-empty marker; all
markers of interest are non-empty.) -/
def rocGo (marker repl : List Char) : Option Nat → List Char → List Char
  | _, [] => []
  | st, c :: rest =>
    if c = '`' then
      let p := takeRun '`' rest
      let run := c :: p.1
      let st' :=
        match st with
        | none => some run.length
        | some opened => if opened = run.length then none else some opened
      run ++ rocGo marker repl st' p.2
    else if h : st = none ∧ marker ≠ [] ∧ marker.isPrefixOf (c :: rest) then
      repl ++ rocGo marker repl st ((c :: rest).drop marker.length)
    else
      c :: rocGo marker repl st rest
termination_by _ l => l.length
decreasing_by
  · simp only [List.length_cons]
    exact Nat.lt_succ_of_le (takeRun_snd_length_le '`' rest)
  · simp only [List.length_drop, List.length_cons]
    have : 1 ≤ marker.length := by
      cases hm : marker with
      | nil => exact absurd hm h.2.1
      | cons a b => simp
    omega
  · simp

/-- `replace_outside_inline_code` (src/html.rs lines 49–97). -/
def replace_outside_inline_code (line marker repl : List Char) : List Char :=
  rocGo marker repl none line

/-- The admonish test on a fence info string (src/html.rs lines 125–126):
`info.trim().to_ascii_lowercase().starts_with("admonish")`.  `Char.toLower`
coincides with Rust's `to_ascii_lowercase` (ASCII-only); the whitespace set
of `Char.isWhitespace` covers the whitespace appearing in practice. -/
def isAdmonishInfo (info : List Char) : Bool :=
  (cs "admonish").isPrefixOf
    (((info.dropWhile Char.isWhitespace).reverse.dropWhile Char.isWhitespace).reverse.map
      Char.toLower)

/-- The per-line fence state machine of `replace_markers_outside_code`
(src/html.rs lines 100–151), processing the chunks produced by
`split_inclusive('\n')`.  State: `none` = outside any fence, `some (c, n)` =
inside a fence opened by a run of `n` copies of `c`. -/
def replaceMarkersGo (marker repl : List Char) :
    Option (Char × Nat) → List (List Char) → List Char
  | _, [] => []
  | st, chunk :: rest =>
    let body := (stripNl chunk).1
    let nl := (stripNl chunk).2
    match parse_fence body with
    | some (ch, runLen, info) =>
      match st with
      | some (fc, fl) =>
        -- inside a fence: maybe close, always copy the delimiter line as-is
        let st' := if ch = fc ∧ fl ≤ runLen then none else some (fc, fl)
        body ++ nl ++ replaceMarkersGo marker repl st' rest
      | none =>
        if isAdmonishInfo info then
          -- pseudo-fence (admonish): fall through, treated as ordinary text
          replace_outside_inline_code body marker repl ++ nl
            ++ replaceMarkersGo marker repl none rest
        else
          -- opening fence: copy the delimiter line as-is
          body ++ nl ++ replaceMarkersGo marker repl (some (ch, runLen)) rest
    | none =>
      match st with
      | some st0 =>
        -- inside a code fence: no replacement
        body ++ nl ++ replaceMarkersGo marker repl (some st0) rest
      | none =>
        replace_outside_inline_code body marker repl ++ nl
          ++ replaceMarkersGo marker repl none rest

/-- `replace_markers_outside_code` (src/html.rs lines 10–154). -/
def replace_markers_outside_code (content marker repl : List Char) : List Char :=
  replaceMarkersGo marker repl none (splitInclusive '\n' content)

/-- Does `body` close a fence opened by a run of `fl` copies of `fc`?
(The closing test of src/html.rs line 113: same character, run length at
least the opening run; non-delimiter lines never close.) -/
def closesFence (fc : Char) (fl : Nat) (body : List Char) : Bool :=
  match parse_fence body with
  | some (ch, run, _) => ch = fc && decide (fl ≤ run)
  | none => false

/-! ### Specification-level replacement

`replaceAllSpec` follows the spec's words: every occurrence of the marker is
replaced, scanning left to right ("fully replaced", "replacement must be
substring-literal ... all occurrences ... in a single left-to-right pass").
It is the reference against which the scanner's outside-code behaviour is
compared. -/

/-- Naive left-to-right replace-all of `marker` by `repl`. -/
def replaceAllSpec (marker repl : List Char) : List Char → List Char
  | [] => []
  | c :: rest =>
    if h : marker ≠ [] ∧ marker.isPrefixOf (c :: rest) then
      repl ++ replaceAllSpec marker repl ((c :: rest).drop marker.length)
    else
      c :: replaceAllSpec marker repl rest
termination_by l => l.length
decreasing_by
  · simp only [List.length_drop, List.length_cons]
    have : 1 ≤ marker.length := by
      cases hm : marker with
      | nil => exact absurd hm h.1
      | cons a b => simp
    omega
  · simp

/-! ### `src/config.rs`: configuration data model -/

/-- `FitConfig` (src/config.rs lines 46–52). -/
structure FitConfig where
  width : Option Nat
  height : Option Nat
deriving DecidableEq

/-- `ShapeFlags` (src/config.rs lines 58–67). -/
structure ShapeFlags where
  square : Bool
  circle : Bool
  rounded_square : Bool
  vertical : Bool
  horizontal : Bool
  diamond : Bool
deriving DecidableEq

/-- `ShapeFlags::any_set` (src/config.rs lines 88–95). -/
def ShapeFlags.any_set (s : ShapeFlags) : Bool :=
  s.square || s.circle || s.rounded_square || s.vertical || s.horizontal || s.diamond

/-- A normalized RGBA colour value (`fast_qr::convert::Color` at the
interface used by this crate); channels are bytes, modelled as `Nat`. -/
structure Color where
  r : Nat
  g : Nat
  b : Nat
  a : Nat
deriving DecidableEq

/-- `ColorCfg` (src/config.rs lines 20–29): hex string, RGBA array or RGB
array. -/
inductive ColorCfg where
  | Hex (s : List Char)
  | Rgba (r g b a : Nat)
  | Rgb (r g b : Nat)
deriving DecidableEq

/-- The value of one hex digit, `none` for a non-hex-digit character. -/
def hexVal (c : Char) : Option Nat :=
  if '0' ≤ c ∧ c ≤ '9' then some (c.toNat - 48)
  else if 'a' ≤ c ∧ c ≤ 'f' then some (c.toNat - 87)
  else if 'A' ≤ c ∧ c ≤ 'F' then some (c.toNat - 55)
  else none

/-- A character that is a valid hexadecimal digit. -/
def isHexDigit (c : Char) : Bool := (hexVal c).isSome

/-- Translate a string of hex digits to their values; `none` if any character
is not a hex digit. -/
def hexDigits : List Char → Option (List Nat)
  | [] => some []
  | c :: rest =>
    match hexVal c, hexDigits rest with
    | some v, some vs => some (v :: vs)
    | _, _ => none

/-- Modelled from the spec: the hex-string arm of colour resolution, which in
the source is `fast_qr::convert::Color::from(&str)` (an external crate, not
under src/).  Per the spec (§4.1, §8): "hex strings accept 3, 6, or 8 hex
digits (RGB, RGB+implicit full alpha, RGBA)", alpha is 255 for lengths 3 and
6 and the 4th byte pair for length 8; a leading `#` is accepted (the spec's
examples are `"#000"`, `"#000000"`, `"#000000FF"`); malformed input has no
specified result (`none`). -/
def colorFromHex (s : List Char) : Option Color :=
  let t := if s.head? = some '#' then s.tail else s
  match hexDigits t with
  | none => none
  | some ds =>
    match ds with
    | [r, g, b] => some ⟨17 * r, 17 * g, 17 * b, 255⟩
    | [r1, r2, g1, g2, b1, b2] =>
      some ⟨16 * r1 + r2, 16 * g1 + g2, 16 * b1 + b2, 255⟩
    | [r1, r2, g1, g2, b1, b2, a1, a2] =>
      some ⟨16 * r1 + r2, 16 * g1 + g2, 16 * b1 + b2, 16 * a1 + a2⟩
    | _ => none

/-- `ColorCfg::to_color` (src/config.rs lines 36–42).  The numeric-array arms
are modelled from the spec ("numeric arrays map positionally", RGB has
implicit full alpha): the conversions themselves live in the external
`fast_qr` crate. -/
def ColorCfg.to_color : ColorCfg → Option Color
  | ColorCfg.Hex s => colorFromHex s
  | ColorCfg.Rgba r g b a => some ⟨r, g, b, a⟩
  | ColorCfg.Rgb r g b => some ⟨r, g, b, 255⟩

/-- `Profile` (src/config.rs lines 102–129).  Strings are Lean `String`s. -/
structure Profile where
  marker : Option String
  qr_path : Option String
  enable : Option Bool
  url : Option String
  fit : FitConfig
  margin : Option Nat
  shape : ShapeFlags
  background : Option ColorCfg
  module : Option ColorCfg
  background_rgba : Option (Nat × Nat × Nat × Nat)
  module_rgba : Option (Nat × Nat × Nat × Nat)
deriving DecidableEq

/-- `QrConfig` (src/config.rs lines 161–181).  The `custom` BTreeMap is
modelled as an association list; a `BTreeMap<String, Profile>` iterates its
entries in strictly increasing (lexicographic) key order, which for the model
is the hypothesis `List.Pairwise (·.1 < ·.1) custom` where used. -/
structure QrConfig where
  enable : Option Bool
  url : Option String
  qr_path : Option String
  fit : FitConfig
  margin : Option Nat
  shape : ShapeFlags
  background : Option ColorCfg
  module : Option ColorCfg
  background_rgba : Option (Nat × Nat × Nat × Nat)
  module_rgba : Option (Nat × Nat × Nat × Nat)
  custom : List (String × Profile)
deriving DecidableEq

/-- `QrConfig::default_profile` (src/config.rs lines 213–227). -/
def QrConfig.default_profile (c : QrConfig) : Profile :=
  { marker := some "\x7b\x7bQR_CODE\x7d\x7d"
    qr_path := c.qr_path
    enable := c.enable
    url := c.url
    fit := c.fit
    margin := c.margin
    shape := c.shape
    background := c.background
    module := c.module
    background_rgba := c.background_rgba
    module_rgba := c.module_rgba }

/-- `QrConfig::inherit` (src/config.rs lines 232–253). -/
def QrConfig.inherit (base child : Profile) : Profile :=
  { marker := child.marker
    qr_path := child.qr_path
    enable := child.enable.or base.enable
    url := child.url.or base.url
    fit := { width := child.fit.width.or base.fit.width
             height := child.fit.height.or base.fit.height }
    margin := child.margin.or base.margin
    shape := if child.shape.any_set then child.shape else base.shape
    background := child.background.or base.background
    module := child.module.or base.module
    background_rgba := child.background_rgba.or base.background_rgba
    module_rgba := child.module_rgba.or base.module_rgba }

/-- The loop body of `QrConfig::profiles` (src/config.rs lines 271–276):
named customs are appended in iteration order, skipping those without a
marker. -/
def profilesLoop (base : Profile) : List (String × Profile) → List Profile
  | [] => []
  | (_, p) :: rest =>
    if p.marker.isSome then QrConfig.inherit base p :: profilesLoop base rest
    else profilesLoop base rest

/-- `QrConfig::profiles` (src/config.rs lines 267–277). -/
def QrConfig.profiles (c : QrConfig) : List Profile :=
  let base := c.default_profile
  base :: profilesLoop base c.custom

/-! ### `src/util.rs`: sizing, slug and path helpers -/

/-- `DEFAULT_SIZE` (src/util.rs line 13). -/
def DEFAULT_SIZE : Nat := 200

/-- `clamp_nonzero` (src/util.rs lines 68–75); the diagnostic label and the
warning log line are side effects outside the value model. -/
def clamp_nonzero (value fallback : Nat) : Nat :=
  if value = 0 then fallback else value

/-- `pass_fit_dims` (src/util.rs lines 30–47). -/
def pass_fit_dims (fit : FitConfig) : Nat × Nat :=
  match fit.width, fit.height with
  | none, none => (DEFAULT_SIZE, DEFAULT_SIZE)
  | some w, none =>
    let ww := clamp_nonzero w DEFAULT_SIZE
    (ww, ww)
  | none, some h =>
    let hh := clamp_nonzero h DEFAULT_SIZE
    (hh, hh)
  | some w, some h =>
    (clamp_nonzero w DEFAULT_SIZE, clamp_nonzero h DEFAULT_SIZE)

/-- Rust `str::trim_matches(c)`: remove all leading and trailing occurrences
of `c`. -/
def trimMatchesChar (t : Char) (l : List Char) : List Char :=
  ((l.dropWhile (· = t)).reverse.dropWhile (· = t)).reverse

/-- Rust `str::trim`: remove leading and trailing whitespace. -/
def trimWs (l : List Char) : List Char :=
  ((l.dropWhile Char.isWhitespace).reverse.dropWhile Char.isWhitespace).reverse

/-- One pass of Rust's `String::replace("__", "_")`: non-overlapping
occurrences of `__` are each replaced by `_`, scanning left to right. -/
def onePass : List Char → List Char
  | [] => []
  | [c] => [c]
  | c :: d :: rest =>
    if c = '_' ∧ d = '_' then '_' :: onePass rest
    else c :: onePass (d :: rest)

/-- Rust `str::contains("__")`. -/
def containsDouble : List Char → Bool
  | [] => false
  | [_] => false
  | c :: d :: rest => (c = '_' && d = '_') || containsDouble (d :: rest)

/-- Termination measures for `collapseLoop` below (needed before its
definition). -/
theorem onePass_length_le (l : List Char) : (onePass l).length ≤ l.length := by
  rw [onePass.eq_def]
  split
  · simp
  · simp
  · rename_i c d rest
    split
    · have := onePass_length_le rest
      simp only [List.length_cons]
      omega
    · have := onePass_length_le (d :: rest)
      simp only [List.length_cons] at *
      omega
termination_by l.length

theorem onePass_length_lt (l : List Char) (h : containsDouble l = true) :
    (onePass l).length < l.length := by
  rw [onePass.eq_def]
  split
  · simp [containsDouble] at h
  · simp [containsDouble] at h
  · rename_i c d rest
    split
    · have := onePass_length_le rest
      simp only [List.length_cons]
      omega
    · rename_i hcd
      have hrest : containsDouble (d :: rest) = true := by
        simp only [containsDouble, Bool.or_eq_true, Bool.and_eq_true, decide_eq_true_eq] at h ⊢
        rcases h with h | h
        · exact absurd ⟨h.1, h.2⟩ hcd
        · exact h
      have := onePass_length_lt (d :: rest) hrest
      simp only [List.length_cons] at *
      omega
termination_by l.length

/-- The `while out.contains("__") { out = out.replace("__", "_") }` loop
(src/util.rs lines 104–106). -/
def collapseLoop (s : List Char) : List Char :=
  if h : containsDouble s = true then collapseLoop (onePass s) else s
termination_by s.length
decreasing_by exact onePass_length_lt s h

/-- `slug_from_marker` (src/util.rs lines 88–108): trim whitespace, trim
leading/trailing `{` then `}`, delete all remaining braces, map ASCII
alphanumerics to lower case and everything else to `_`, collapse `__` runs,
trim `_` from both ends.  `Char.isAlphanum` is Rust's
`is_ascii_alphanumeric`; `Char.toLower` is Rust's `to_ascii_lowercase`. -/
def slug_from_marker (marker : List Char) : List Char :=
  let s := trimMatchesChar '}' (trimMatchesChar '{' (trimWs marker))
  let s := s.filter (fun c => c != '{' && c != '}')
  let out := s.map (fun ch => if ch.isAlphanum then ch.toLower else '_')
  trimMatchesChar '_' (collapseLoop out)

/-- Unix `Path::is_absolute`: the path begins with a separator. -/
def isAbsolutePath (p : List Char) : Bool := p.head? = some '/'

/-- `Path::join` with a relative right-hand side: append with a single
separator (no duplicate separator, empty base yields the component). -/
def joinPath (a b : List Char) : List Char :=
  if a = [] then b
  else if a.getLast? = some '/' then a ++ b
  else a ++ '/' :: b

/-- `derived_default_path` (src/util.rs lines 129–133):
`<src_dir>/qr/<slug>.png`. -/
def derived_default_path (src_dir marker : List Char) : List Char :=
  joinPath (joinPath src_dir (cs "qr")) (slug_from_marker marker ++ cs ".png")

/-- `resolve_profile_path` (src/util.rs lines 169–180). -/
def resolve_profile_path (src_dir : List Char) (qr_path : Option (List Char))
    (marker : List Char) : List Char :=
  match qr_path with
  | some p => if isAbsolutePath p then p else joinPath src_dir p
  | none => derived_default_path src_dir marker

/-! ### Specification-side slug definitions

`specCore` renders the spec's words "lower-case, replace every
non-alphanumeric run with a single underscore" directly: alphanumerics are
lowered, every maximal run of non-alphanumerics becomes one `_`. -/

/-- Lower-case alphanumerics, each maximal non-alphanumeric run becomes a
single underscore. -/
def specCore : List Char → List Char
  | [] => []
  | c :: rest =>
    if c.isAlphanum then c.toLower :: specCore rest
    else '_' :: specCore (rest.dropWhile (fun d => !d.isAlphanum))
termination_by l => l.length
decreasing_by
  · simp
  · simp only [List.length_cons]
    exact Nat.lt_succ_of_le ((List.dropWhile_sublist _).length_le)

/-- The slug algorithm exactly as claim C8 words it: strip the wrapping
double braces, lower-case, replace every non-alphanumeric run with a single
underscore, strip leading and trailing underscores. -/
def slugSpecClaim (m : List Char) : List Char :=
  let core :=
    if (cs "\x7b\x7b").isPrefixOf m ∧ (cs "\x7d\x7d").isSuffixOf m
    then ((m.drop 2).dropLast).dropLast
    else m
  trimMatchesChar '_' (specCore core)

/-- The amended slug algorithm: trim surrounding whitespace, delete every
brace, lower-case, replace every remaining non-alphanumeric run with a
single underscore, strip leading and trailing underscores. -/
def slugSpecAmended (m : List Char) : List Char :=
  trimMatchesChar '_' (specCore ((trimWs m).filter (fun c => c != '{' && c != '}')))

/-- Reference run-collapsing function used to relate the `replace` loop of
`slug_from_marker` to `specCore`. -/
def collapseRuns : List Char → List Char
  | [] => []
  | [c] => [c]
  | c :: d :: rest =>
    if c = '_' ∧ d = '_' then collapseRuns (d :: rest)
    else c :: collapseRuns (d :: rest)

/-! ### Scanner lemmas -/

theorem takeRun_append (ch : Char) (l : List Char) :
    (takeRun ch l).1 ++ (takeRun ch l).2 = l := by
  induction l with
  | nil => simp [takeRun]
  | cons c rest ih =>
    by_cases h : c = ch <;> simp [takeRun, h]
    simpa [h] using ih

/-- On a list that starts with exactly `k` copies of `ch` (the next character,
if any, differs), `takeRun` returns that run and the remainder. -/
theorem takeRun_replicate (ch : Char) (k : Nat) (rest : List Char)
    (h : rest.head? ≠ some ch) :
    takeRun ch (List.replicate k ch ++ rest) = (List.replicate k ch, rest) := by
  induction k with
  | zero =>
    cases rest with
    | nil => simp [takeRun]
    | cons r rs =>
      have hr : r ≠ ch := by simpa using h
      simp [takeRun, hr]
  | succ n ih => simp [List.replicate_succ, takeRun, ih]

/-- Splitting a newline-terminated line off the front of the content. -/
theorem splitInclusive_line (line rest : List Char) (h : '\n' ∉ line) :
    splitInclusive '\n' (line ++ '\n' :: rest)
      = (line ++ ['\n']) :: splitInclusive '\n' rest := by
  induction line with
  | nil => simp [splitInclusive]
  | cons c l ih =>
    have hc : c ≠ '\n' := fun hc => h (hc ▸ List.mem_cons_self c l)
    have hl : '\n' ∉ l := fun hl => h (List.mem_cons_of_mem c hl)
    rw [List.cons_append, splitInclusive]
    simp only [if_neg hc, ih hl]
    simp

theorem stripNl_append (l : List Char) : (stripNl l).1 ++ (stripNl l).2 = l := by
  unfold stripNl
  by_cases h : l.getLast? = some '\n'
  · cases l with
    | nil => simp at h
    | cons c rest =>
      simp only [if_pos h]
      have := List.dropLast_append_getLast? (l := c :: rest) _ h
      simpa using this
  · simp [h]

theorem stripNl_of_line (line : List Char) (h : '\n' ∉ line) :
    stripNl (line ++ ['\n']) = (line, ['\n']) := by
  unfold stripNl
  simp

theorem rocGo_nil (m r : List Char) (st : Option Nat) : rocGo m r st [] = [] := by
  rw [rocGo]

theorem rocGo_cons_copy (m r : List Char) (st : Option Nat) (c : Char) (rest : List Char)
    (hc : c ≠ '`') (hm : ¬(st = none ∧ m ≠ [] ∧ m.isPrefixOf (c :: rest) = true)) :
    rocGo m r st (c :: rest) = c :: rocGo m r st rest := by
  rw [rocGo, if_neg hc, dif_neg hm]

theorem rocGo_cons_match (m r : List Char) (st : Option Nat) (c : Char) (rest : List Char)
    (hc : c ≠ '`') (hm : st = none ∧ m ≠ [] ∧ m.isPrefixOf (c :: rest) = true) :
    rocGo m r st (c :: rest) = r ++ rocGo m r st ((c :: rest).drop m.length) := by
  rw [rocGo, if_neg hc, dif_pos hm]

theorem rocGo_run (m r : List Char) (st : Option Nat) (k : Nat) (rest : List Char)
    (hk : 0 < k) (hrest : rest.head? ≠ some '`') :
    rocGo m r st (List.replicate k '`' ++ rest)
      = List.replicate k '`'
        ++ rocGo m r
            (match st with
             | none => some k
             | some opened => if opened = k then none else some opened) rest := by
  obtain ⟨k', rfl⟩ : ∃ k', k = k' + 1 := ⟨k - 1, by omega⟩
  rw [List.replicate_succ, List.cons_append, rocGo]
  simp only [if_pos rfl]
  rw [takeRun_replicate '`' k' rest hrest]
  simp [List.replicate_succ]

theorem replaceAllSpec_nil (m r : List Char) : replaceAllSpec m r [] = [] := by
  rw [replaceAllSpec]

theorem replaceAllSpec_cons_match (m r : List Char) (c : Char) (rest : List Char)
    (hm : m ≠ [] ∧ m.isPrefixOf (c :: rest) = true) :
    replaceAllSpec m r (c :: rest) = r ++ replaceAllSpec m r ((c :: rest).drop m.length) := by
  rw [replaceAllSpec, dif_pos hm]

theorem replaceAllSpec_cons_copy (m r : List Char) (c : Char) (rest : List Char)
    (hm : ¬(m ≠ [] ∧ m.isPrefixOf (c :: rest) = true)) :
    replaceAllSpec m r (c :: rest) = c :: replaceAllSpec m r rest := by
  rw [replaceAllSpec, dif_neg hm]

/-- Inside an open inline span, every non-backtick character is copied
verbatim and the span state is unchanged. -/
theorem rocGo_span_copy (m r : List Char) (k : Nat) (mid rest : List Char)
    (hbt : ∀ c ∈ mid, c ≠ '`') :
    rocGo m r (some k) (mid ++ rest) = mid ++ rocGo m r (some k) rest := by
  induction mid with
  | nil => simp
  | cons c mid ih =>
    have hc : c ≠ '`' := hbt c (List.mem_cons_self c mid)
    rw [List.cons_append, rocGo_cons_copy m r (some k) c (mid ++ rest) hc (by simp),
      ih (fun d hd => hbt d (List.mem_cons_of_mem c hd))]
    simp

/-- Outside any inline span, a line without backticks undergoes plain
left-to-right replace-all. -/
theorem rocGo_no_bt (m r : List Char) :
    ∀ (n : Nat) (line : List Char), line.length ≤ n → (∀ c ∈ line, c ≠ '`') →
      rocGo m r none line = replaceAllSpec m r line := by
  intro n
  induction n with
  | zero =>
    intro line hl _
    have : line = [] := List.length_eq_zero.mp (Nat.le_zero.mp hl)
    subst this
    rw [rocGo_nil, replaceAllSpec_nil]
  | succ n ih =>
    intro line hl hbt
    cases line with
    | nil => rw [rocGo_nil, replaceAllSpec_nil]
    | cons c rest =>
      have hc : c ≠ '`' := hbt c (List.mem_cons_self c rest)
      by_cases hm : m ≠ [] ∧ m.isPrefixOf (c :: rest) = true
      · rw [rocGo_cons_match m r none c rest hc ⟨rfl, hm.1, hm.2⟩,
          replaceAllSpec_cons_match m r c rest hm]
        have hmlen : 1 ≤ m.length := by
          cases hme : m with
          | nil => exact absurd hme hm.1
          | cons a b => simp
        have hdroplen : ((c :: rest).drop m.length).length ≤ n := by
          simp only [List.length_drop, List.length_cons]
          simp only [List.length_cons] at hl
          omega
        have hdropbt : ∀ d ∈ (c :: rest).drop m.length, d ≠ '`' :=
          fun d hd => hbt d (List.mem_of_mem_drop hd)
        rw [ih _ hdroplen hdropbt]
      · rw [rocGo_cons_copy m r none c rest hc
            (fun hh => absurd ⟨hh.2.1, hh.2.2⟩ hm),
          replaceAllSpec_cons_copy m r c rest hm]
        have : rest.length ≤ n := by simp only [List.length_cons] at hl; omega
        rw [ih rest this (fun d hd => hbt d (List.mem_cons_of_mem c hd))]



theorem replaceMarkersGo_nil (m r : List Char) (st : Option (Char × Nat)) :
    replaceMarkersGo m r st [] = [] := rfl

theorem rmGo_chunk_inFence_stay (m r : List Char) (fc : Char) (fl : Nat)
    (chunk : List Char) (rest : List (List Char))
    (h : closesFence fc fl (stripNl chunk).1 = false) :
    replaceMarkersGo m r (some (fc, fl)) (chunk :: rest)
      = chunk ++ replaceMarkersGo m r (some (fc, fl)) rest := by
  cases hp : parse_fence (stripNl chunk).1 with
  | none =>
    simp only [replaceMarkersGo, hp]
    rw [stripNl_append]
  | some v =>
    obtain ⟨ch, run, info⟩ := v
    have hno : ¬(ch = fc ∧ fl ≤ run) := by
      simp only [closesFence, hp, Bool.and_eq_true, decide_eq_true_eq] at h
      intro hcon
      rw [hcon.1] at h
      simp [hcon.2] at h
    simp only [replaceMarkersGo, hp, if_neg hno]
    rw [stripNl_append]

theorem rmGo_chunk_close (m r : List Char) (fc : Char) (fl : Nat)
    (chunk : List Char) (rest : List (List Char))
    (h : closesFence fc fl (stripNl chunk).1 = true) :
    replaceMarkersGo m r (some (fc, fl)) (chunk :: rest)
      = chunk ++ replaceMarkersGo m r none rest := by
  cases hp : parse_fence (stripNl chunk).1 with
  | none => simp [closesFence, hp] at h
  | some v =>
    obtain ⟨ch, run, info⟩ := v
    have hyes : ch = fc ∧ fl ≤ run := by
      simp only [closesFence, hp, Bool.and_eq_true, decide_eq_true_eq] at h
      exact h
    simp only [replaceMarkersGo, hp, if_pos hyes]
    rw [stripNl_append]

theorem rmGo_chunk_open (m r : List Char) (chunk : List Char) (rest : List (List Char))
    (ch : Char) (run : Nat) (info : List Char)
    (hp : parse_fence (stripNl chunk).1 = some (ch, run, info))
    (ha : isAdmonishInfo info = false) :
    replaceMarkersGo m r none (chunk :: rest)
      = chunk ++ replaceMarkersGo m r (some (ch, run)) rest := by
  simp only [replaceMarkersGo, hp, ha, Bool.false_eq_true, if_false]
  rw [stripNl_append]

theorem rmGo_chunk_admonish (m r : List Char) (chunk : List Char) (rest : List (List Char))
    (ch : Char) (run : Nat) (info : List Char)
    (hp : parse_fence (stripNl chunk).1 = some (ch, run, info))
    (ha : isAdmonishInfo info = true) :
    replaceMarkersGo m r none (chunk :: rest)
      = replace_outside_inline_code (stripNl chunk).1 m r ++ (stripNl chunk).2
          ++ replaceMarkersGo m r none rest := by
  simp only [replaceMarkersGo, hp, ha, if_true]

theorem rmGo_chunk_outside (m r : List Char) (chunk : List Char) (rest : List (List Char))
    (hp : parse_fence (stripNl chunk).1 = none) :
    replaceMarkersGo m r none (chunk :: rest)
      = replace_outside_inline_code (stripNl chunk).1 m r ++ (stripNl chunk).2
          ++ replaceMarkersGo m r none rest := by
  simp only [replaceMarkersGo, hp]

/-- Every chunk of a fenced block's body passes through verbatim while the
fence stays open. -/
theorem rmGo_fence_body (m r : List Char) (fc : Char) (fl : Nat) :
    ∀ (chunks : List (List Char)) (rest : List (List Char)),
      (∀ c ∈ chunks, closesFence fc fl (stripNl c).1 = false) →
      replaceMarkersGo m r (some (fc, fl)) (chunks ++ rest)
        = chunks.flatten ++ replaceMarkersGo m r (some (fc, fl)) rest := by
  intro chunks
  induction chunks with
  | nil => simp
  | cons c cksrest ih =>
    intro rest h
    rw [List.cons_append,
      rmGo_chunk_inFence_stay m r fc fl c _ (h c (List.mem_cons_self c cksrest)),
      ih rest (fun d hd => h d (List.mem_cons_of_mem c hd))]
    simp

theorem splitInclusive_chunks :
    ∀ (lines : List (List Char)) (rest : List Char),
      (∀ l ∈ lines, '\n' ∉ l) →
      splitInclusive '\n' ((lines.map (· ++ ['\n'])).flatten ++ rest)
        = lines.map (· ++ ['\n']) ++ splitInclusive '\n' rest := by
  intro lines
  induction lines with
  | nil => simp
  | cons l ls ih =>
    intro rest h
    have hl : '\n' ∉ l := h l (List.mem_cons_self l ls)
    simp only [List.map_cons, List.flatten_cons, List.append_assoc]
    have : (['\n'] : List Char) ++ ((List.map (fun x => x ++ ['\n']) ls).flatten ++ rest)
        = '\n' :: ((List.map (fun x => x ++ ['\n']) ls).flatten ++ rest) := rfl
    rw [this, splitInclusive_line l _ hl,
      ih rest (fun d hd => h d (List.mem_cons_of_mem l hd))]
    rfl

theorem rocGo_run_open (m r : List Char) (k : Nat) (rest : List Char)
    (hk : 0 < k) (hrest : rest.head? ≠ some '`') :
    rocGo m r none (List.replicate k '`' ++ rest)
      = List.replicate k '`' ++ rocGo m r (some k) rest := by
  rw [rocGo_run m r none k rest hk hrest]

theorem rocGo_run_inspan (m r : List Char) (opened k : Nat) (rest : List Char)
    (hk : 0 < k) (hrest : rest.head? ≠ some '`') :
    rocGo m r (some opened) (List.replicate k '`' ++ rest)
      = List.replicate k '`'
        ++ rocGo m r (if opened = k then none else some opened) rest := by
  rw [rocGo_run m r (some opened) k rest hk hrest]

/-- An inline span opened and closed by equal backtick runs is copied
verbatim and replacement resumes after it. -/
theorem roc_span_exact_close (marker repl : List Char) (k : Nat) (mid tail : List Char)
    (hk : 0 < k) (hmid : mid ≠ []) (hmidbt : ∀ c ∈ mid, c ≠ '`')
    (htailbt : ∀ c ∈ tail, c ≠ '`') :
    replace_outside_inline_code
        (List.replicate k '`' ++ mid ++ List.replicate k '`' ++ tail) marker repl
      = List.replicate k '`' ++ mid ++ List.replicate k '`'
          ++ replaceAllSpec marker repl tail := by
  have hmidh : (mid ++ (List.replicate k '`' ++ tail)).head? ≠ some '`' := by
    cases mid with
    | nil => exact absurd rfl hmid
    | cons c crest => simpa using hmidbt c (List.mem_cons_self c crest)
  have htailh : tail.head? ≠ some '`' := by
    cases tail with
    | nil => simp
    | cons c crest => simpa using htailbt c (List.mem_cons_self c crest)
  unfold replace_outside_inline_code
  rw [List.append_assoc, List.append_assoc,
    rocGo_run_open marker repl k _ hk hmidh,
    rocGo_span_copy marker repl k mid _ hmidbt,
    rocGo_run_inspan marker repl k k tail hk htailh]
  simp only [eq_self_iff_true, if_true]
  rw [rocGo_no_bt marker repl tail.length tail (le_refl _) htailbt]
  simp [List.append_assoc]

/-- A backtick run of a different length does not close the span; everything
stays verbatim to the end of the line. -/
theorem roc_span_mismatch (marker repl : List Char) (k j : Nat) (mid tail : List Char)
    (hk : 0 < k) (hj : 0 < j) (hjk : j ≠ k) (hmid : mid ≠ [])
    (hmidbt : ∀ c ∈ mid, c ≠ '`') (htailbt : ∀ c ∈ tail, c ≠ '`') :
    replace_outside_inline_code
        (List.replicate k '`' ++ mid ++ List.replicate j '`' ++ tail) marker repl
      = List.replicate k '`' ++ mid ++ List.replicate j '`' ++ tail := by
  have hmidh : (mid ++ (List.replicate j '`' ++ tail)).head? ≠ some '`' := by
    cases mid with
    | nil => exact absurd rfl hmid
    | cons c crest => simpa using hmidbt c (List.mem_cons_self c crest)
  have htailh : tail.head? ≠ some '`' := by
    cases tail with
    | nil => simp
    | cons c crest => simpa using htailbt c (List.mem_cons_self c crest)
  have htail0 : rocGo marker repl (some k) tail = tail := by
    have := rocGo_span_copy marker repl k tail [] htailbt
    simpa [rocGo_nil] using this
  unfold replace_outside_inline_code
  rw [List.append_assoc, List.append_assoc,
    rocGo_run_open marker repl k _ hk hmidh,
    rocGo_span_copy marker repl k mid _ hmidbt,
    rocGo_run_inspan marker repl k j tail hj htailh,
    if_neg (Ne.symm hjk), htail0]

/-- A properly closed non-admonish fenced block passes through the
substitution byte-for-byte; scanning resumes from the outside state after
the closing delimiter. -/
theorem fence_block_verbatim (marker repl openL closeL restText : List Char)
    (body : List (List Char)) (ch : Char) (n : Nat) (info : List Char)
    (hopenNl : '\n' ∉ openL) (hbodyNl : ∀ b ∈ body, '\n' ∉ b) (hcloseNl : '\n' ∉ closeL)
    (hp : parse_fence openL = some (ch, n, info))
    (hadm : isAdmonishInfo info = false)
    (hbody : ∀ b ∈ body, closesFence ch n b = false)
    (hcl : closesFence ch n closeL = true) :
    replace_markers_outside_code
        (openL ++ '\n' :: ((body.map (· ++ ['\n'])).flatten ++ (closeL ++ '\n' :: restText)))
        marker repl
      = openL ++ '\n' :: ((body.map (· ++ ['\n'])).flatten
          ++ (closeL ++ '\n' :: replace_markers_outside_code restText marker repl)) := by
  unfold replace_markers_outside_code
  rw [splitInclusive_line openL _ hopenNl, splitInclusive_chunks body _ hbodyNl,
    splitInclusive_line closeL _ hcloseNl]
  have hstrip : stripNl (openL ++ ['\n']) = (openL, ['\n']) := stripNl_of_line openL hopenNl
  rw [rmGo_chunk_open marker repl (openL ++ ['\n']) _ ch n info (by rw [hstrip]; exact hp) hadm]
  have hbody' : ∀ c ∈ body.map (· ++ ['\n']), closesFence ch n (stripNl c).1 = false := by
    intro c hc
    obtain ⟨b, hb, rfl⟩ := List.mem_map.mp hc
    rw [stripNl_of_line b (hbodyNl b hb)]
    exact hbody b hb
  rw [rmGo_fence_body marker repl ch n _ _ hbody']
  have hstripc : stripNl (closeL ++ ['\n']) = (closeL, ['\n']) := stripNl_of_line closeL hcloseNl
  rw [rmGo_chunk_close marker repl ch n (closeL ++ ['\n']) _ (by rw [hstripc]; exact hcl)]
  simp [List.append_assoc]

/-- A non-delimiter backtick-free line outside any fence undergoes plain
replace-all; scanning continues on the rest of the document. -/
theorem outside_line_replaced (marker repl line restText : List Char)
    (hnl : '\n' ∉ line) (hbt : ∀ c ∈ line, c ≠ '`')
    (hp : parse_fence line = none) :
    replace_markers_outside_code (line ++ '\n' :: restText) marker repl
      = replaceAllSpec marker repl line
          ++ '\n' :: replace_markers_outside_code restText marker repl := by
  unfold replace_markers_outside_code
  rw [splitInclusive_line line _ hnl]
  have hstrip : stripNl (line ++ ['\n']) = (line, ['\n']) := stripNl_of_line line hnl
  rw [rmGo_chunk_outside marker repl (line ++ ['\n']) _ (by rw [hstrip]; exact hp)]
  rw [hstrip]
  unfold replace_outside_inline_code
  rw [rocGo_no_bt marker repl line.length line (le_refl _) hbt]
  simp

/-! ### Claims C1, C2, C4: the substitution engine -/

/-- C1 (amended): markers inside a properly closed fenced code block whose
info string does not begin with the pseudo-fence keyword `admonish` are left
unchanged byte-for-byte (the whole block passes through verbatim and
scanning resumes outside after the closing delimiter), and markers on a
backtick-free non-delimiter line outside any fence are all replaced
(left-to-right replace-all). -/
theorem C1_fence_roundtrip_amended :
    (∀ (marker repl openL closeL restText : List Char)
        (body : List (List Char)) (ch : Char) (n : Nat) (info : List Char),
      '\n' ∉ openL → (∀ b ∈ body, '\n' ∉ b) → '\n' ∉ closeL →
      parse_fence openL = some (ch, n, info) →
      isAdmonishInfo info = false →
      (∀ b ∈ body, closesFence ch n b = false) →
      closesFence ch n closeL = true →
      replace_markers_outside_code
          (openL ++ '\n' :: ((body.map (· ++ ['\n'])).flatten
            ++ (closeL ++ '\n' :: restText))) marker repl
        = openL ++ '\n' :: ((body.map (· ++ ['\n'])).flatten
            ++ (closeL ++ '\n' :: replace_markers_outside_code restText marker repl)))
    ∧ (∀ (marker repl line restText : List Char),
      '\n' ∉ line → (∀ c ∈ line, c ≠ '`') → parse_fence line = none →
      replace_markers_outside_code (line ++ '\n' :: restText) marker repl
        = replaceAllSpec marker repl line
            ++ '\n' :: replace_markers_outside_code restText marker repl) := by
  constructor
  · intro marker repl openL closeL restText body ch n info h1 h2 h3 h4 h5 h6 h7
    exact fence_block_verbatim marker repl openL closeL restText body ch n info
      h1 h2 h3 h4 h5 h6 h7
  · intro marker repl line restText h1 h2 h3
    exact outside_line_replaced marker repl line restText h1 h2 h3

/-- C1, counterexample to the claim as stated: the marker sits inside a
properly closed fenced block (opened by a line whose delimiter run is three
tildes, closed by three tildes) but is substituted, because the opening
line's info string is the pseudo-fence keyword `admonish`. -/
theorem C1_claim_counterexample :
    replace_markers_outside_code (cs "~~~admonish\n\x7b\x7bQR\x7d\x7d\n~~~\n")
        (cs "\x7b\x7bQR\x7d\x7d") (cs "X")
      = cs "~~~admonish\nX\n~~~\n"
    ∧ replace_markers_outside_code (cs "~~~admonish\n\x7b\x7bQR\x7d\x7d\n~~~\n")
        (cs "\x7b\x7bQR\x7d\x7d") (cs "X")
      ≠ cs "~~~admonish\n\x7b\x7bQR\x7d\x7d\n~~~\n" := by
  have e : replace_markers_outside_code (cs "~~~admonish\n\x7b\x7bQR\x7d\x7d\n~~~\n")
      (cs "\x7b\x7bQR\x7d\x7d") (cs "X") = cs "~~~admonish\nX\n~~~\n" := by
    simp only [cs]
    simp +decide [replace_markers_outside_code, splitInclusive, replaceMarkersGo, stripNl,
      parse_fence, takeRun, isAdmonishInfo, replace_outside_inline_code, rocGo,
      List.isPrefixOf]
  exact ⟨e, by rw [e]; decide⟩

/-- C1 witness: a concrete backtick fence keeps its marker, the marker on the
following plain line is replaced. -/
theorem C1_fence_roundtrip_amended_witness :
    replace_markers_outside_code (cs "```\n\x7b\x7bQR\x7d\x7d\n```\n\x7b\x7bQR\x7d\x7d\n")
        (cs "\x7b\x7bQR\x7d\x7d") (cs "X")
      = cs "```\n\x7b\x7bQR\x7d\x7d\n```\nX\n" := by
  have h := C1_fence_roundtrip_amended.1 (cs "\x7b\x7bQR\x7d\x7d") (cs "X")
    (cs "```") (cs "```") (cs "\x7b\x7bQR\x7d\x7d\n") [cs "\x7b\x7bQR\x7d\x7d"] '`' 3 []
    (by decide) (by decide) (by decide) (by decide) (by decide) (by decide) (by decide)
  have e1 : cs "```\n\x7b\x7bQR\x7d\x7d\n```\n\x7b\x7bQR\x7d\x7d\n"
      = (cs "```") ++ '\n' :: ((([cs "\x7b\x7bQR\x7d\x7d"]).map (· ++ ['\n'])).flatten
          ++ ((cs "```") ++ '\n' :: (cs "\x7b\x7bQR\x7d\x7d\n"))) := by decide
  have e2 : replace_markers_outside_code (cs "\x7b\x7bQR\x7d\x7d\n")
      (cs "\x7b\x7bQR\x7d\x7d") (cs "X") = cs "X\n" := by
    simp only [cs]
    simp +decide [replace_markers_outside_code, splitInclusive, replaceMarkersGo, stripNl,
      parse_fence, takeRun, isAdmonishInfo, replace_outside_inline_code, rocGo,
      List.isPrefixOf]
  rw [e2] at h
  rw [e1, h]
  decide

/-- C2: the single-line span scanner opens an inline span at a backtick run,
closes it only at a later run of exactly the same length (a mismatched run
changes nothing and the line stays literal), copies backtick runs verbatim,
performs replace-all only while no span is open, and leaves markers inside
an open span untouched; in particular `` `{{QR}}` `` is unchanged and in
`{{QR}} hello` the marker is replaced with " hello" preserved. -/
theorem C2_inline_code_spans :
    (∀ (marker repl : List Char) (k : Nat) (mid tail : List Char),
      0 < k → mid ≠ [] → (∀ c ∈ mid, c ≠ '`') → (∀ c ∈ tail, c ≠ '`') →
      replace_outside_inline_code
          (List.replicate k '`' ++ mid ++ List.replicate k '`' ++ tail) marker repl
        = List.replicate k '`' ++ mid ++ List.replicate k '`'
            ++ replaceAllSpec marker repl tail)
    ∧ (∀ (marker repl : List Char) (k j : Nat) (mid tail : List Char),
      0 < k → 0 < j → j ≠ k → mid ≠ [] →
      (∀ c ∈ mid, c ≠ '`') → (∀ c ∈ tail, c ≠ '`') →
      replace_outside_inline_code
          (List.replicate k '`' ++ mid ++ List.replicate j '`' ++ tail) marker repl
        = List.replicate k '`' ++ mid ++ List.replicate j '`' ++ tail)
    ∧ (∀ (marker repl line : List Char), (∀ c ∈ line, c ≠ '`') →
      replace_outside_inline_code line marker repl = replaceAllSpec marker repl line)
    ∧ (∀ repl : List Char,
      replace_outside_inline_code (cs "`\x7b\x7bQR\x7d\x7d`") (cs "\x7b\x7bQR\x7d\x7d") repl
        = cs "`\x7b\x7bQR\x7d\x7d`")
    ∧ (∀ repl : List Char,
      replace_outside_inline_code (cs "\x7b\x7bQR\x7d\x7d hello") (cs "\x7b\x7bQR\x7d\x7d") repl
        = repl ++ cs " hello") := by
  refine ⟨roc_span_exact_close, roc_span_mismatch, ?_, ?_, ?_⟩
  · intro marker repl line hbt
    exact rocGo_no_bt marker repl line.length line (le_refl _) hbt
  · intro repl
    simp only [cs]
    simp +decide [replace_outside_inline_code, rocGo, takeRun, List.isPrefixOf]
  · intro repl
    simp only [cs]
    simp +decide [replace_outside_inline_code, rocGo, takeRun, List.isPrefixOf,
      replaceAllSpec]

/-- C2 witness: a doubled-backtick span closed by a matching double run, with
replacement resuming after it; and a mismatched closing run leaving the line
unchanged. -/
theorem C2_inline_code_spans_witness :
    replace_outside_inline_code (cs "``x``ab y") (cs "ab") (cs "X") = cs "``x``X y"
    ∧ replace_outside_inline_code (cs "``x`ab") (cs "ab") (cs "X") = cs "``x`ab" := by
  constructor
  · have h := C2_inline_code_spans.1 (cs "ab") (cs "X") 2 (cs "x") (cs "ab y")
      (by decide) (by decide) (by decide) (by decide)
    have e1 : List.replicate 2 '`' ++ cs "x" ++ List.replicate 2 '`' ++ cs "ab y"
        = cs "``x``ab y" := by decide
    have e2 : replaceAllSpec (cs "ab") (cs "X") (cs "ab y") = cs "X y" := by
      simp only [cs]
      simp +decide [replaceAllSpec]
    rw [e1, e2] at h
    rw [h]
    decide
  · have h := C2_inline_code_spans.2.1 (cs "ab") (cs "X") 2 1 (cs "x") (cs "ab")
      (by decide) (by decide) (by decide) (by decide) (by decide) (by decide)
    have e1 : List.replicate 2 '`' ++ cs "x" ++ List.replicate 1 '`' ++ cs "ab"
        = cs "``x`ab" := by decide
    rw [e1] at h
    exact h

/-- C4 (amended): a fence-delimiter-shaped line is copied through
byte-for-byte — with the single exception of a line seen outside any fence
whose info string begins with the pseudo-fence keyword `admonish`, which is
treated as ordinary text and IS a substitution target. -/
theorem C4_delimiter_lines_verbatim (m r : List Char) (st : Option (Char × Nat))
    (line : List Char) (rest : List (List Char)) (ch : Char) (run : Nat)
    (info : List Char)
    (hnl : '\n' ∉ line)
    (hp : parse_fence line = some (ch, run, info))
    (hadm : st = none → isAdmonishInfo info = false) :
    ∃ st', replaceMarkersGo m r st ((line ++ ['\n']) :: rest)
      = (line ++ ['\n']) ++ replaceMarkersGo m r st' rest := by
  have hstrip : stripNl (line ++ ['\n']) = (line, ['\n']) := stripNl_of_line line hnl
  cases st with
  | none =>
    refine ⟨some (ch, run), ?_⟩
    rw [rmGo_chunk_open m r (line ++ ['\n']) rest ch run info (by rw [hstrip]; exact hp)
      (hadm rfl)]
  | some p =>
    obtain ⟨fc, fl⟩ := p
    by_cases hcl : closesFence fc fl line = true
    · refine ⟨none, ?_⟩
      rw [rmGo_chunk_close m r fc fl (line ++ ['\n']) rest (by rw [hstrip]; exact hcl)]
    · refine ⟨some (fc, fl), ?_⟩
      rw [rmGo_chunk_inFence_stay m r fc fl (line ++ ['\n']) rest
        (by rw [hstrip]; exact Bool.not_eq_true _ ▸ hcl)]

/-- C4, counterexample to the claim as stated: a delimiter-shaped line whose
info string begins with `admonish`, encountered outside a fence, does not
appear unchanged in the output — the marker in its info string is
substituted. -/
theorem C4_claim_counterexample :
    replace_markers_outside_code (cs "~~~admonish \x7b\x7bQR\x7d\x7d\n")
        (cs "\x7b\x7bQR\x7d\x7d") (cs "X")
      = cs "~~~admonish X\n"
    ∧ replace_markers_outside_code (cs "~~~admonish \x7b\x7bQR\x7d\x7d\n")
        (cs "\x7b\x7bQR\x7d\x7d") (cs "X")
      ≠ cs "~~~admonish \x7b\x7bQR\x7d\x7d\n" := by
  have e : replace_markers_outside_code (cs "~~~admonish \x7b\x7bQR\x7d\x7d\n")
      (cs "\x7b\x7bQR\x7d\x7d") (cs "X") = cs "~~~admonish X\n" := by
    simp only [cs]
    simp +decide [replace_markers_outside_code, splitInclusive, replaceMarkersGo, stripNl,
      parse_fence, takeRun, isAdmonishInfo, replace_outside_inline_code, rocGo,
      List.isPrefixOf]
  exact ⟨e, by rw [e]; decide⟩

/-- C4 witness: a concrete delimiter line with an ordinary info string is
copied through unchanged (here it opens a fence). -/
theorem C4_delimiter_lines_verbatim_witness :
    ∃ st', replaceMarkersGo (cs "ab") (cs "X") none ((cs "```rust" ++ ['\n']) :: [])
      = (cs "```rust" ++ ['\n']) ++ replaceMarkersGo (cs "ab") (cs "X") st' [] :=
  C4_delimiter_lines_verbatim (cs "ab") (cs "X") none (cs "```rust") [] '`' 3
    (cs "rust") (by decide) (by decide) (fun _ => by decide)

/-! ### Claims C3, C5, C9: the profile resolver -/

/-- C5: merge takes marker and explicit output path from the override alone;
every other scalar optional field is base's when absent in the override and
the override's otherwise; the shape selector inherits as a whole unit; fit
width and height inherit per-dimension independently. -/
theorem C5_merge_inheritance (base child : Profile) :
    (QrConfig.inherit base child).marker = child.marker
    ∧ (QrConfig.inherit base child).qr_path = child.qr_path
    ∧ (child.enable = none → (QrConfig.inherit base child).enable = base.enable)
    ∧ (child.enable ≠ none → (QrConfig.inherit base child).enable = child.enable)
    ∧ (child.url = none → (QrConfig.inherit base child).url = base.url)
    ∧ (child.url ≠ none → (QrConfig.inherit base child).url = child.url)
    ∧ (child.margin = none → (QrConfig.inherit base child).margin = base.margin)
    ∧ (child.margin ≠ none → (QrConfig.inherit base child).margin = child.margin)
    ∧ (child.background = none → (QrConfig.inherit base child).background = base.background)
    ∧ (child.background ≠ none → (QrConfig.inherit base child).background = child.background)
    ∧ (child.module = none → (QrConfig.inherit base child).module = base.module)
    ∧ (child.module ≠ none → (QrConfig.inherit base child).module = child.module)
    ∧ (child.background_rgba = none →
        (QrConfig.inherit base child).background_rgba = base.background_rgba)
    ∧ (child.background_rgba ≠ none →
        (QrConfig.inherit base child).background_rgba = child.background_rgba)
    ∧ (child.module_rgba = none →
        (QrConfig.inherit base child).module_rgba = base.module_rgba)
    ∧ (child.module_rgba ≠ none →
        (QrConfig.inherit base child).module_rgba = child.module_rgba)
    ∧ (child.shape.any_set = true → (QrConfig.inherit base child).shape = child.shape)
    ∧ (child.shape.any_set = false → (QrConfig.inherit base child).shape = base.shape)
    ∧ (child.fit.width = none →
        (QrConfig.inherit base child).fit.width = base.fit.width)
    ∧ (child.fit.width ≠ none →
        (QrConfig.inherit base child).fit.width = child.fit.width)
    ∧ (child.fit.height = none →
        (QrConfig.inherit base child).fit.height = base.fit.height)
    ∧ (child.fit.height ≠ none →
        (QrConfig.inherit base child).fit.height = child.fit.height) := by
  refine ⟨rfl, rfl, ?_, ?_, ?_, ?_, ?_, ?_, ?_, ?_, ?_, ?_, ?_, ?_, ?_, ?_, ?_, ?_,
    ?_, ?_, ?_, ?_⟩ <;>
    simp only [QrConfig.inherit] <;>
    intro h
  · cases hx : child.enable <;> simp_all [Option.or]
  · cases hx : child.enable <;> simp_all [Option.or]
  · cases hx : child.url <;> simp_all [Option.or]
  · cases hx : child.url <;> simp_all [Option.or]
  · cases hx : child.margin <;> simp_all [Option.or]
  · cases hx : child.margin <;> simp_all [Option.or]
  · cases hx : child.background <;> simp_all [Option.or]
  · cases hx : child.background <;> simp_all [Option.or]
  · cases hx : child.module <;> simp_all [Option.or]
  · cases hx : child.module <;> simp_all [Option.or]
  · cases hx : child.background_rgba <;> simp_all [Option.or]
  · cases hx : child.background_rgba <;> simp_all [Option.or]
  · cases hx : child.module_rgba <;> simp_all [Option.or]
  · cases hx : child.module_rgba <;> simp_all [Option.or]
  · simp [h]
  · simp [h]
  · cases hx : child.fit.width <;> simp_all [Option.or]
  · cases hx : child.fit.width <;> simp_all [Option.or]
  · cases hx : child.fit.height <;> simp_all [Option.or]
  · cases hx : child.fit.height <;> simp_all [Option.or]

/-- A concrete base profile used by the C5 witness. -/
def c5Base : Profile :=
  { marker := some "\x7b\x7bQR_CODE\x7d\x7d"
    qr_path := some "qr/base.png"
    enable := some true
    url := some "https://example.org/"
    fit := { width := some 300, height := some 240 }
    margin := some 2
    shape := { square := true, circle := false, rounded_square := false,
               vertical := false, horizontal := false, diamond := false }
    background := some (ColorCfg.Hex (cs "#FFFFFFFF"))
    module := some (ColorCfg.Hex (cs "#000000FF"))
    background_rgba := some (255, 255, 255, 255)
    module_rgba := none }

/-- A concrete override profile used by the C5 witness. -/
def c5Child : Profile :=
  { marker := some "\x7b\x7bQR_FLYER\x7d\x7d"
    qr_path := none
    enable := none
    url := some "https://example.org/flyer"
    fit := { width := some 100, height := none }
    margin := none
    shape := { square := false, circle := false, rounded_square := false,
               vertical := false, horizontal := false, diamond := false }
    background := none
    module := some (ColorCfg.Rgb 10 20 30)
    background_rgba := none
    module_rgba := some (1, 2, 3, 4) }

/-- C5 witness: the merge of two concrete profiles takes identity fields from
the override, inherits absent fields from the base, keeps present override
fields, inherits the whole shape selector, and mixes fit dimensions
independently. -/
theorem C5_merge_inheritance_witness :
    (QrConfig.inherit c5Base c5Child).marker = c5Child.marker
    ∧ (QrConfig.inherit c5Base c5Child).qr_path = c5Child.qr_path
    ∧ (QrConfig.inherit c5Base c5Child).enable = c5Base.enable
    ∧ (QrConfig.inherit c5Base c5Child).url = c5Child.url
    ∧ (QrConfig.inherit c5Base c5Child).margin = c5Base.margin
    ∧ (QrConfig.inherit c5Base c5Child).module = c5Child.module
    ∧ (QrConfig.inherit c5Base c5Child).shape = c5Base.shape
    ∧ (QrConfig.inherit c5Base c5Child).fit.width = c5Child.fit.width
    ∧ (QrConfig.inherit c5Base c5Child).fit.height = c5Base.fit.height := by
  obtain ⟨h1, h2, h3, h4, h5, h6, h7, h8, h9, h10, h11, h12, h13, h14, h15, h16,
    h17, h18, h19, h20, h21, h22⟩ := C5_merge_inheritance c5Base c5Child
  exact ⟨h1, h2, h3 (by decide), h6 (by decide), h7 (by decide), h12 (by decide),
    h18 (by decide), h20 (by decide), h21 (by decide)⟩

/-- An empty shape-flag selector (serde default). -/
def noShape : ShapeFlags :=
  { square := false, circle := false, rounded_square := false,
    vertical := false, horizontal := false, diamond := false }

/-- A profile with only a marker set, as deserialized from
`[preprocessor.qr.custom.flyer]` containing nothing but `marker`. -/
def c3Flyer : Profile :=
  { marker := some "FLYER"
    qr_path := none
    enable := none
    url := none
    fit := { width := none, height := none }
    margin := none
    shape := noShape
    background := none
    module := none
    background_rgba := none
    module_rgba := none }

/-- A top-level configuration with no payload and no path anywhere and a
single named custom profile that has a marker but neither payload nor
explicit path. -/
def c3Cfg : QrConfig :=
  { enable := none
    url := none
    qr_path := none
    fit := { width := none, height := none }
    margin := none
    shape := noShape
    background := none
    module := none
    background_rgba := none
    module_rgba := none
    custom := [("flyer", c3Flyer)] }

/-- C3, counterexample to the claim as stated: a profile with no payload text
and no explicit output path is NOT dropped by the profile resolver — the
resolved list handed to orchestration contains such a profile. -/
theorem C3_claim_counterexample :
    ∃ p ∈ c3Cfg.profiles, p.marker.isSome ∧ p.url = none ∧ p.qr_path = none := by
  decide

/-- The loop of `QrConfig::profiles` keeps exactly the customs that have a
marker, merged against the base, in iteration order. -/
theorem profilesLoop_eq (base : Profile) :
    ∀ l : List (String × Profile),
      profilesLoop base l
        = (l.filter (fun nc => nc.2.marker.isSome)).map
            (fun nc => QrConfig.inherit base nc.2) := by
  intro l
  induction l with
  | nil => rfl
  | cons nc rest ih =>
    obtain ⟨name, p⟩ := nc
    by_cases h : p.marker.isSome <;> simp [profilesLoop, h, ih]

/-- C3 (amended): the profile resolver drops precisely the named overrides
lacking a marker — every profile handed to orchestration has a marker; a
profile merely lacking payload and explicit path is retained. -/
theorem C3_resolver_drops_markerless (cfg : QrConfig) (p : Profile)
    (hp : p ∈ cfg.profiles) : p.marker.isSome := by
  unfold QrConfig.profiles at hp
  rcases List.mem_cons.mp hp with h | h
  · subst h; rfl
  · rw [profilesLoop_eq] at h
    obtain ⟨nc, hnc, rfl⟩ := List.mem_map.mp h
    have := List.of_mem_filter hnc
    simpa [QrConfig.inherit] using this

/-- C3 witness: the marker-bearing but payload-less custom profile is in the
resolved list, and the theorem certifies every resolved profile has a
marker. -/
theorem C3_resolver_drops_markerless_witness :
    QrConfig.inherit c3Cfg.default_profile c3Flyer ∈ c3Cfg.profiles
    ∧ (QrConfig.inherit c3Cfg.default_profile c3Flyer).marker.isSome := by
  refine ⟨by decide, ?_⟩
  exact C3_resolver_drops_markerless c3Cfg _ (by decide)

/-- C9: the resolved profile list is the default profile first, followed by
the merged named overrides in configuration order — which, the custom table
iterating in strictly increasing (lexicographic) name order, is lexicographic
order of names — with marker-less overrides omitted. -/
theorem C9_profile_order (cfg : QrConfig)
    (hsort : List.Pairwise (fun a b => a.1.data < b.1.data) cfg.custom) :
    cfg.profiles
      = cfg.default_profile ::
          (cfg.custom.filter (fun nc => nc.2.marker.isSome)).map
            (fun nc => QrConfig.inherit cfg.default_profile nc.2)
    ∧ List.Pairwise (fun a b => a.1.data < b.1.data)
        (cfg.custom.filter (fun nc => nc.2.marker.isSome)) := by
  constructor
  · show cfg.default_profile :: profilesLoop cfg.default_profile cfg.custom = _
    rw [profilesLoop_eq]
  · exact hsort.filter _

/-- A named custom without a marker, used by the C9 witness. -/
def c9Beta : Profile :=
  { marker := none
    qr_path := none
    enable := none
    url := some "https://example.org/beta"
    fit := { width := none, height := none }
    margin := none
    shape := noShape
    background := none
    module := none
    background_rgba := none
    module_rgba := none }

/-- A configuration with three named customs in lexicographic key order, the
middle one lacking a marker; used by the C9 witness. -/
def c9Cfg : QrConfig :=
  { enable := none
    url := some "https://example.org/"
    qr_path := none
    fit := { width := none, height := none }
    margin := none
    shape := noShape
    background := none
    module := none
    background_rgba := none
    module_rgba := none
    custom := [("alpha", c3Flyer), ("beta", c9Beta), ("gamma", c3Flyer)] }

/-- C9 witness: on a concrete configuration the resolved list is the default
profile followed by the merged `alpha` and `gamma` overrides (the marker-less
`beta` omitted), names in lexicographic order. -/
theorem C9_profile_order_witness :
    c9Cfg.profiles
      = c9Cfg.default_profile ::
          (c9Cfg.custom.filter (fun nc => nc.2.marker.isSome)).map
            (fun nc => QrConfig.inherit c9Cfg.default_profile nc.2)
    ∧ List.Pairwise (fun a b => a.1.data < b.1.data)
        (c9Cfg.custom.filter (fun nc => nc.2.marker.isSome)) :=
  C9_profile_order c9Cfg (by decide)

/-! ### Claims C6, C7: the colour and fit value model -/

/-- C7: dimension resolution defaults, mirrors a single present dimension,
substitutes the default for provided zeroes, and never returns zero. -/
theorem C7_fit_dims (fit : FitConfig) :
    (fit.width = none → fit.height = none → pass_fit_dims fit = (DEFAULT_SIZE, DEFAULT_SIZE))
    ∧ (fit.height = none → (pass_fit_dims fit).1 = (pass_fit_dims fit).2)
    ∧ (fit.width = none → (pass_fit_dims fit).1 = (pass_fit_dims fit).2)
    ∧ (fit.width = some 0 → (pass_fit_dims fit).1 = DEFAULT_SIZE)
    ∧ (fit.height = some 0 → (pass_fit_dims fit).2 = DEFAULT_SIZE)
    ∧ (pass_fit_dims fit).1 ≠ 0
    ∧ (pass_fit_dims fit).2 ≠ 0
    ∧ (∀ w, fit.width = some w → w ≠ 0 → fit.height = none →
        pass_fit_dims fit = (w, w))
    ∧ (∀ hv, fit.height = some hv → hv ≠ 0 → fit.width = none →
        pass_fit_dims fit = (hv, hv)) := by
  obtain ⟨w, h⟩ := fit
  cases w <;> cases h <;>
    refine ⟨?_, ?_, ?_, ?_, ?_, ?_, ?_, ?_, ?_⟩ <;>
    simp_all [pass_fit_dims, clamp_nonzero, DEFAULT_SIZE] <;>
    (split <;> simp_all)

/-- C7 witness: concrete checks — both absent gives the default square; a
sole width of 0 is clamped to the default and mirrored; a sole height is
mirrored; results are never zero. -/
theorem C7_fit_dims_witness :
    pass_fit_dims { width := none, height := none } = (DEFAULT_SIZE, DEFAULT_SIZE)
    ∧ (pass_fit_dims { width := some 0, height := none }).1 = DEFAULT_SIZE
    ∧ (pass_fit_dims { width := some 0, height := none }).1
        = (pass_fit_dims { width := some 0, height := none }).2
    ∧ (pass_fit_dims { width := none, height := some 120 }).1
        = (pass_fit_dims { width := none, height := some 120 }).2
    ∧ (pass_fit_dims { width := some 0, height := some 0 }).2 ≠ 0
    ∧ pass_fit_dims { width := some 150, height := none } = (150, 150) := by
  refine ⟨(C7_fit_dims _).1 rfl rfl, (C7_fit_dims _).2.2.2.1 rfl,
    (C7_fit_dims _).2.1 rfl, (C7_fit_dims _).2.2.1 rfl,
    (C7_fit_dims _).2.2.2.2.2.2.1,
    (C7_fit_dims _).2.2.2.2.2.2.2.1 150 rfl (by decide) rfl⟩

/-- C6: colour resolution — valid hex strings of 3, 6 or 8 digits resolve to
an RGBA value whose alpha is 255 for lengths 3 and 6 and the 4th byte pair
for length 8; the RGB and RGBA array shapes always resolve, RGB with
implicit full alpha. -/
theorem C6_color_resolution :
    (∀ d1 d2 d3 : Char, isHexDigit d1 → isHexDigit d2 → isHexDigit d3 →
      ∃ col, (ColorCfg.Hex [d1, d2, d3]).to_color = some col ∧ col.a = 255)
    ∧ (∀ d1 d2 d3 d4 d5 d6 : Char,
      isHexDigit d1 → isHexDigit d2 → isHexDigit d3 →
      isHexDigit d4 → isHexDigit d5 → isHexDigit d6 →
      ∃ col, (ColorCfg.Hex [d1, d2, d3, d4, d5, d6]).to_color = some col ∧ col.a = 255)
    ∧ (∀ d1 d2 d3 d4 d5 d6 d7 d8 : Char,
      isHexDigit d1 → isHexDigit d2 → isHexDigit d3 → isHexDigit d4 →
      isHexDigit d5 → isHexDigit d6 → isHexDigit d7 → isHexDigit d8 →
      ∃ col, (ColorCfg.Hex [d1, d2, d3, d4, d5, d6, d7, d8]).to_color = some col
        ∧ col.a = 16 * (hexVal d7).getD 0 + (hexVal d8).getD 0)
    ∧ (∀ r g b a : Nat, (ColorCfg.Rgba r g b a).to_color = some ⟨r, g, b, a⟩)
    ∧ (∀ r g b : Nat, (ColorCfg.Rgb r g b).to_color = some ⟨r, g, b, 255⟩) := by
  have hhash : ∀ c : Char, isHexDigit c → c ≠ '#' := by
    intro c hc he
    subst he
    exact absurd hc (by decide)
  refine ⟨?_, ?_, ?_, fun r g b a => rfl, fun r g b => rfl⟩
  · intro d1 d2 d3 h1 h2 h3
    obtain ⟨v1, hv1⟩ := Option.isSome_iff_exists.mp h1
    obtain ⟨v2, hv2⟩ := Option.isSome_iff_exists.mp h2
    obtain ⟨v3, hv3⟩ := Option.isSome_iff_exists.mp h3
    refine ⟨⟨17 * v1, 17 * v2, 17 * v3, 255⟩, ?_, rfl⟩
    simp [ColorCfg.to_color, colorFromHex, hexDigits, hhash d1 h1, hv1, hv2, hv3]
  · intro d1 d2 d3 d4 d5 d6 h1 h2 h3 h4 h5 h6
    obtain ⟨v1, hv1⟩ := Option.isSome_iff_exists.mp h1
    obtain ⟨v2, hv2⟩ := Option.isSome_iff_exists.mp h2
    obtain ⟨v3, hv3⟩ := Option.isSome_iff_exists.mp h3
    obtain ⟨v4, hv4⟩ := Option.isSome_iff_exists.mp h4
    obtain ⟨v5, hv5⟩ := Option.isSome_iff_exists.mp h5
    obtain ⟨v6, hv6⟩ := Option.isSome_iff_exists.mp h6
    refine ⟨⟨16 * v1 + v2, 16 * v3 + v4, 16 * v5 + v6, 255⟩, ?_, rfl⟩
    simp [ColorCfg.to_color, colorFromHex, hexDigits, hhash d1 h1, hv1, hv2, hv3, hv4, hv5, hv6]
  · intro d1 d2 d3 d4 d5 d6 d7 d8 h1 h2 h3 h4 h5 h6 h7 h8
    obtain ⟨v1, hv1⟩ := Option.isSome_iff_exists.mp h1
    obtain ⟨v2, hv2⟩ := Option.isSome_iff_exists.mp h2
    obtain ⟨v3, hv3⟩ := Option.isSome_iff_exists.mp h3
    obtain ⟨v4, hv4⟩ := Option.isSome_iff_exists.mp h4
    obtain ⟨v5, hv5⟩ := Option.isSome_iff_exists.mp h5
    obtain ⟨v6, hv6⟩ := Option.isSome_iff_exists.mp h6
    obtain ⟨v7, hv7⟩ := Option.isSome_iff_exists.mp h7
    obtain ⟨v8, hv8⟩ := Option.isSome_iff_exists.mp h8
    refine ⟨⟨16 * v1 + v2, 16 * v3 + v4, 16 * v5 + v6, 16 * v7 + v8⟩, ?_, ?_⟩
    · simp [ColorCfg.to_color, colorFromHex, hexDigits, hhash d1 h1, hv1, hv2, hv3, hv4, hv5, hv6,
        hv7, hv8]
    · simp [hv7, hv8]

/-- C6 witness: `#`-free and array forms at concrete inputs — "f80" has full
alpha, "11223344" has alpha 0x44 = 68. -/
theorem C6_color_resolution_witness :
    (∃ col, (ColorCfg.Hex (cs "f80")).to_color = some col ∧ col.a = 255)
    ∧ (∃ col, (ColorCfg.Hex (cs "11223344")).to_color = some col
        ∧ col.a = 16 * (hexVal '4').getD 0 + (hexVal '4').getD 0)
    ∧ (ColorCfg.Rgb 1 2 3).to_color = some ⟨1, 2, 3, 255⟩ := by
  refine ⟨C6_color_resolution.1 'f' '8' '0' (by decide) (by decide) (by decide),
    ?_, C6_color_resolution.2.2.2.2 1 2 3⟩
  exact C6_color_resolution.2.2.1 '1' '1' '2' '2' '3' '3' '4' '4'
    (by decide) (by decide) (by decide) (by decide)
    (by decide) (by decide) (by decide) (by decide)

/-! ### Claims C8, C10: slug and path resolution -/

theorem toNat_ofNat_of_valid {n : Nat} (h : n.isValidChar) : (Char.ofNat n).toNat = n := by
  simp [Char.ofNat, h, Char.ofNatAux, Char.toNat, UInt32.toNat, BitVec.toNat_ofNatLt]

theorem ule {a b : UInt32} : a ≤ b ↔ a.toNat ≤ b.toNat := by
  simp only [UInt32.le_def, BitVec.le_def, UInt32.toNat]

theorem toLower_of_upper {c : Char} (h1 : 65 ≤ c.toNat) (h2 : c.toNat ≤ 90) :
    (Char.toLower c).toNat = c.toNat + 32 := by
  have hv : (c.toNat + 32).isValidChar := Or.inl (by omega)
  simp [Char.toLower, h1, h2, toNat_ofNat_of_valid hv]

theorem toLower_of_not_upper {c : Char} (h : ¬(65 ≤ c.toNat ∧ c.toNat ≤ 90)) :
    Char.toLower c = c := by
  unfold Char.toLower
  rw [if_neg]
  intro hc
  exact h ⟨hc.1, hc.2⟩

/-- `isUpper`, `isLower`, `isDigit`, `isAlphanum` in terms of `toNat`. -/
theorem isLower_iff {c : Char} : c.isLower = true ↔ 97 ≤ c.toNat ∧ c.toNat ≤ 122 := by
  simp only [Char.isLower, Bool.and_eq_true, decide_eq_true_eq, ge_iff_le, ule]
  constructor
  · intro ⟨x, y⟩
    exact ⟨by simpa using x, by simpa using y⟩
  · intro ⟨x, y⟩
    exact ⟨by simpa using x, by simpa using y⟩

theorem isUpper_iff {c : Char} : c.isUpper = true ↔ 65 ≤ c.toNat ∧ c.toNat ≤ 90 := by
  simp only [Char.isUpper, Bool.and_eq_true, decide_eq_true_eq, ge_iff_le, ule]
  constructor
  · intro ⟨x, y⟩
    exact ⟨by simpa using x, by simpa using y⟩
  · intro ⟨x, y⟩
    exact ⟨by simpa using x, by simpa using y⟩

theorem isDigit_iff {c : Char} : c.isDigit = true ↔ 48 ≤ c.toNat ∧ c.toNat ≤ 57 := by
  simp only [Char.isDigit, Bool.and_eq_true, decide_eq_true_eq, ge_iff_le, ule]
  constructor
  · intro ⟨x, y⟩
    exact ⟨by simpa using x, by simpa using y⟩
  · intro ⟨x, y⟩
    exact ⟨by simpa using x, by simpa using y⟩

/-- On ASCII alphanumerics, lowering gives a lowercase letter or a digit. -/
theorem toLower_lowerAlnum {c : Char} (h : c.isAlphanum = true) :
    (Char.toLower c).isLower = true ∨ (Char.toLower c).isDigit = true := by
  simp only [Char.isAlphanum, Char.isAlpha, Bool.or_eq_true] at h
  rcases h with (hup | hlo) | hdig
  · left
    obtain ⟨h1, h2⟩ := isUpper_iff.mp hup
    rw [isLower_iff, toLower_of_upper h1 h2]
    omega
  · left
    obtain ⟨h1, h2⟩ := isLower_iff.mp hlo
    rw [toLower_of_not_upper (by omega)]
    exact isLower_iff.mpr ⟨h1, h2⟩
  · right
    obtain ⟨h1, h2⟩ := isDigit_iff.mp hdig
    rw [toLower_of_not_upper (by omega)]
    exact isDigit_iff.mpr ⟨h1, h2⟩

/-- On ASCII alphanumerics, lowering never yields an underscore. -/
theorem toLower_ne_underscore {c : Char} (h : c.isAlphanum = true) :
    Char.toLower c ≠ '_' := by
  intro he
  rcases toLower_lowerAlnum h with hl | hd
  · rw [he] at hl
    exact absurd hl (by decide)
  · rw [he] at hd
    exact absurd hd (by decide)

theorem onePass_head? (l : List Char) : (onePass l).head? = l.head? := by
  match l with
  | [] => rfl
  | [c] => rfl
  | c :: d :: rest =>
    rw [onePass]
    by_cases h : c = '_' ∧ d = '_'
    · rw [if_pos h, h.1]
      rfl
    · rw [if_neg h]
      rfl

theorem onePass_cons (d : Char) (rest : List Char) :
    ∃ t, onePass (d :: rest) = d :: t := by
  have h := onePass_head? (d :: rest)
  cases ho : onePass (d :: rest) with
  | nil => rw [ho] at h; simp at h
  | cons x t =>
    rw [ho] at h
    simp only [List.head?_cons, Option.some.injEq] at h
    exact ⟨t, by rw [h]⟩

theorem collapseRuns_dd (rest : List Char) :
    collapseRuns ('_' :: '_' :: rest) = collapseRuns ('_' :: rest) := by
  rw [collapseRuns]
  simp

theorem collapseRuns_cons₂ (c d : Char) (rest : List Char) (h : ¬(c = '_' ∧ d = '_')) :
    collapseRuns (c :: d :: rest) = c :: collapseRuns (d :: rest) := by
  rw [collapseRuns, if_neg h]

/-- `collapseRuns` is invariant under one `replace("__","_")` pass, also
with a leading underscore prepended. -/
theorem collapseRuns_onePass :
    ∀ (n : Nat) (s : List Char), s.length ≤ n →
      collapseRuns (onePass s) = collapseRuns s
      ∧ collapseRuns ('_' :: onePass s) = collapseRuns ('_' :: s) := by
  intro n
  induction n with
  | zero =>
    intro s hs
    have : s = [] := List.length_eq_zero.mp (Nat.le_zero.mp hs)
    subst this
    exact ⟨rfl, rfl⟩
  | succ n ih =>
    intro s hs
    match s with
    | [] => exact ⟨rfl, rfl⟩
    | [c] => exact ⟨rfl, rfl⟩
    | c :: d :: rest =>
      simp only [List.length_cons] at hs
      by_cases hcd : c = '_' ∧ d = '_'
      · obtain ⟨rfl, rfl⟩ : c = '_' ∧ d = '_' := hcd
        rw [onePass, if_pos ⟨rfl, rfl⟩]
        have hrest := (ih rest (by omega)).2
        constructor
        · rw [hrest, collapseRuns_dd rest]
        · rw [collapseRuns_dd (onePass rest), hrest, collapseRuns_dd ('_' :: rest),
            collapseRuns_dd rest]
      · rw [onePass, if_neg hcd]
        obtain ⟨t, ht⟩ := onePass_cons d rest
        have hdr := (ih (d :: rest) (by simp only [List.length_cons]; omega)).1
        rw [ht] at hdr
        constructor
        · rw [ht, collapseRuns_cons₂ c d t hcd, hdr, collapseRuns_cons₂ c d rest hcd]
        · by_cases hc : c = '_'
          · subst hc
            have hd : d ≠ '_' := fun hdd => hcd ⟨rfl, hdd⟩
            rw [ht, collapseRuns_dd (d :: t), collapseRuns_dd (d :: rest),
              collapseRuns_cons₂ '_' d t (fun hh => hd hh.2), hdr,
              collapseRuns_cons₂ '_' d rest (fun hh => hd hh.2)]
          · rw [ht, collapseRuns_cons₂ '_' c (d :: t) (fun hh => hc hh.2),
              collapseRuns_cons₂ c d t hcd, hdr,
              collapseRuns_cons₂ '_' c (d :: rest) (fun hh => hc hh.2),
              collapseRuns_cons₂ c d rest hcd]

/-- Without a `__` occurrence, `collapseRuns` is the identity. -/
theorem collapseRuns_of_noDouble :
    ∀ s : List Char, containsDouble s = false → collapseRuns s = s := by
  intro s
  match s with
  | [] => intro _; rfl
  | [c] => intro _; rfl
  | c :: d :: rest =>
    intro h
    simp only [containsDouble, Bool.or_eq_false_iff, Bool.and_eq_false_iff] at h
    have hcd : ¬(c = '_' ∧ d = '_') := by
      intro hh
      rcases h.1 with hx | hx <;> simp [hh.1, hh.2] at hx
    rw [collapseRuns_cons₂ c d rest hcd,
      collapseRuns_of_noDouble (d :: rest) h.2]
termination_by s => s.length
decreasing_by simp

/-- The `replace` loop computes `collapseRuns`. -/
theorem collapseLoop_eq_collapseRuns :
    ∀ (n : Nat) (s : List Char), s.length ≤ n → collapseLoop s = collapseRuns s := by
  intro n
  induction n with
  | zero =>
    intro s hs
    have : s = [] := List.length_eq_zero.mp (Nat.le_zero.mp hs)
    subst this
    rw [collapseLoop]
    simp [containsDouble, collapseRuns]
  | succ n ih =>
    intro s hs
    rw [collapseLoop]
    by_cases h : containsDouble s = true
    · rw [dif_pos h]
      have hlt := onePass_length_lt s h
      rw [ih (onePass s) (by omega)]
      exact (collapseRuns_onePass s.length s (le_refl _)).1
    · rw [dif_neg h]
      exact (collapseRuns_of_noDouble s (Bool.not_eq_true _ ▸ h)).symm

theorem collapseRuns_cons_ne (c : Char) (X : List Char) (hc : c ≠ '_') :
    collapseRuns (c :: X) = c :: collapseRuns X := by
  cases X with
  | nil => rfl
  | cons x xs => exact collapseRuns_cons₂ c x xs (fun hh => hc hh.1)

/-- A leading underscore absorbs the whole following non-alphanumeric run
under `collapseRuns ∘ map`. -/
theorem collapseRuns_absorb (ds : List Char) :
    collapseRuns ('_' :: ds.map (fun ch => if ch.isAlphanum then ch.toLower else '_'))
      = '_' :: collapseRuns ((ds.dropWhile (fun d => !d.isAlphanum)).map
          (fun ch => if ch.isAlphanum then ch.toLower else '_')) := by
  induction ds with
  | nil => rfl
  | cons d ds ih =>
    by_cases hd : d.isAlphanum = true
    · rw [List.map_cons, if_pos hd, List.dropWhile_cons, if_neg (by simp [hd]),
        List.map_cons, if_pos hd,
        collapseRuns_cons₂ '_' (Char.toLower d) _
          (fun hh => toLower_ne_underscore hd hh.2)]
    · rw [List.map_cons, if_neg hd, List.dropWhile_cons, if_pos (by simp [hd]),
        collapseRuns_dd, ih]

/-- Collapsing the per-character image of `slug_from_marker`'s mapping step
computes the specification's run replacement. -/
theorem collapseRuns_map_eq_specCore :
    ∀ (n : Nat) (s : List Char), s.length ≤ n →
      collapseRuns (s.map (fun ch => if ch.isAlphanum then ch.toLower else '_'))
        = specCore s := by
  intro n
  induction n with
  | zero =>
    intro s hs
    have : s = [] := List.length_eq_zero.mp (Nat.le_zero.mp hs)
    subst this
    simp [specCore, collapseRuns]
  | succ n ih =>
    intro s hs
    match s with
    | [] => simp [specCore, collapseRuns]
    | c :: rest =>
      simp only [List.length_cons] at hs
      by_cases hc : c.isAlphanum = true
      · rw [List.map_cons, if_pos hc,
          collapseRuns_cons_ne _ _ (toLower_ne_underscore hc),
          ih rest (by omega), specCore, if_pos hc]
      · rw [List.map_cons, if_neg hc, collapseRuns_absorb,
          ih _ (Nat.le_trans ((List.dropWhile_sublist _).length_le) (by omega)),
          specCore, if_neg hc]

theorem filter_brace_dropWhile (t : Char) (ht : t = '{' ∨ t = '}') (l : List Char) :
    (l.dropWhile (· = t)).filter (fun c => c != '{' && c != '}')
      = l.filter (fun c => c != '{' && c != '}') := by
  induction l with
  | nil => rfl
  | cons c rest ih =>
    by_cases hc : c = t
    · subst hc
      rw [List.dropWhile_cons, if_pos (by simp), ih, List.filter_cons,
        if_neg (by rcases ht with h | h <;> simp [h])]
    · rw [List.dropWhile_cons, if_neg (by simp [hc])]

theorem filter_brace_trimMatches (t : Char) (ht : t = '{' ∨ t = '}') (l : List Char) :
    (trimMatchesChar t l).filter (fun c => c != '{' && c != '}')
      = l.filter (fun c => c != '{' && c != '}') := by
  unfold trimMatchesChar
  rw [List.filter_reverse, filter_brace_dropWhile t ht, List.filter_reverse,
    filter_brace_dropWhile t ht, List.reverse_reverse]

/-- `slug_from_marker` computes the amended specification algorithm. -/
theorem slug_eq_spec (m : List Char) : slug_from_marker m = slugSpecAmended m := by
  show trimMatchesChar '_'
      (collapseLoop
        (((trimMatchesChar '}' (trimMatchesChar '{' (trimWs m))).filter
            (fun c => c != '{' && c != '}')).map
          (fun ch => if ch.isAlphanum then ch.toLower else '_')))
    = trimMatchesChar '_' (specCore ((trimWs m).filter (fun c => c != '{' && c != '}')))
  rw [filter_brace_trimMatches '}' (Or.inr rfl), filter_brace_trimMatches '{' (Or.inl rfl),
    collapseLoop_eq_collapseRuns _ _ (le_refl _),
    collapseRuns_map_eq_specCore _ _ (le_refl _)]

theorem dropWhile_head?_pred (p : Char → Bool) :
    ∀ (l : List Char) (c : Char), (l.dropWhile p).head? = some c → p c = false := by
  intro l
  induction l with
  | nil => intro c h; simp at h
  | cons a rest ih =>
    intro c h
    by_cases ha : p a = true
    · rw [List.dropWhile_cons, if_pos ha] at h
      exact ih c h
    · rw [List.dropWhile_cons, if_neg ha] at h
      simp only [List.head?_cons, Option.some.injEq] at h
      subst h
      exact Bool.not_eq_true _ ▸ ha

theorem specCore_chars :
    ∀ (n : Nat) (s : List Char), s.length ≤ n →
      ∀ c ∈ specCore s, (c.isLower || c.isDigit) = true ∨ c = '_' := by
  intro n
  induction n with
  | zero =>
    intro s hs
    have : s = [] := List.length_eq_zero.mp (Nat.le_zero.mp hs)
    subst this
    simp [specCore]
  | succ n ih =>
    intro s hs c hc
    match s with
    | [] => simp [specCore] at hc
    | a :: rest =>
      simp only [List.length_cons] at hs
      by_cases ha : a.isAlphanum = true
      · rw [specCore, if_pos ha] at hc
        rcases List.mem_cons.mp hc with rfl | hmem
        · left
          rcases toLower_lowerAlnum ha with h | h <;> simp [h]
        · exact ih rest (by omega) c hmem
      · rw [specCore, if_neg ha] at hc
        rcases List.mem_cons.mp hc with rfl | hmem
        · right; rfl
        · exact ih _ (Nat.le_trans ((List.dropWhile_sublist _).length_le) (by omega)) c hmem

theorem specCore_chain :
    ∀ (n : Nat) (s : List Char), s.length ≤ n →
      (specCore s).Chain' (fun a b => ¬(a = '_' ∧ b = '_')) := by
  intro n
  induction n with
  | zero =>
    intro s hs
    have : s = [] := List.length_eq_zero.mp (Nat.le_zero.mp hs)
    subst this
    simp [specCore]
  | succ n ih =>
    intro s hs
    match s with
    | [] => simp [specCore]
    | a :: rest =>
      simp only [List.length_cons] at hs
      by_cases ha : a.isAlphanum = true
      · rw [specCore, if_pos ha]
        refine List.Chain'.cons' (ih rest (by omega)) ?_
        intro y _ hy
        exact toLower_ne_underscore ha hy.1
      · rw [specCore, if_neg ha]
        refine List.Chain'.cons'
          (ih _ (Nat.le_trans ((List.dropWhile_sublist _).length_le) (by omega))) ?_
        intro y hy hcon
        cases hu : rest.dropWhile (fun d => !d.isAlphanum) with
        | nil => rw [hu] at hy; simp [specCore] at hy
        | cons d ds =>
          have hd : (fun d => !d.isAlphanum) d = false := by
            apply dropWhile_head?_pred (fun d => !d.isAlphanum) rest
            rw [hu]; rfl
          have hd' : d.isAlphanum = true := by simpa using hd
          rw [hu, specCore, if_pos hd'] at hy
          simp only [List.head?_cons, Option.mem_def, Option.some.injEq] at hy
          rw [← hy] at hcon
          exact toLower_ne_underscore hd' hcon.2

theorem mem_trimMatchesChar (t : Char) (l : List Char) :
    ∀ c ∈ trimMatchesChar t l, c ∈ l := by
  intro c hc
  unfold trimMatchesChar at hc
  rw [List.mem_reverse] at hc
  have h1 := (List.dropWhile_sublist (fun x => x = t)).subset hc
  rw [List.mem_reverse] at h1
  exact (List.dropWhile_sublist _).subset h1

theorem chain'_trimMatchesChar (t : Char) (l : List Char)
    (h : l.Chain' (fun a b => ¬(a = '_' ∧ b = '_'))) :
    (trimMatchesChar t l).Chain' (fun a b => ¬(a = '_' ∧ b = '_')) := by
  unfold trimMatchesChar
  have h1 : (l.dropWhile (· = t)).Chain' (fun a b => ¬(a = '_' ∧ b = '_')) :=
    h.suffix (List.dropWhile_suffix _)
  have h2 : ((l.dropWhile (· = t)).reverse).Chain' (fun a b => ¬(a = '_' ∧ b = '_')) := by
    rw [List.chain'_reverse]
    exact h1.imp (fun a b hab hcon => hab ⟨hcon.2, hcon.1⟩)
  have h3 := h2.suffix (List.dropWhile_suffix (fun x => x = t))
  rw [List.chain'_reverse]
  exact h3.imp (fun a b hab hcon => hab ⟨hcon.2, hcon.1⟩)

theorem getLast?_of_suffix {Y X : List Char} (h : Y <:+ X) (hne : Y ≠ []) :
    Y.getLast? = X.getLast? := by
  obtain ⟨w, rfl⟩ := h
  rw [List.getLast?_append_of_ne_nil _ hne]

theorem trimMatchesChar_head? (t : Char) (l : List Char) :
    (trimMatchesChar t l).head? ≠ some t := by
  unfold trimMatchesChar
  intro h
  rw [List.head?_reverse] at h
  have hY : (((l.dropWhile (· = t)).reverse).dropWhile (· = t)) ≠ [] := by
    intro he
    rw [he] at h
    simp at h
  rw [getLast?_of_suffix (List.dropWhile_suffix _) hY, List.getLast?_reverse] at h
  have := dropWhile_head?_pred (fun x => decide (x = t)) l t h
  simp at this

theorem trimMatchesChar_getLast? (t : Char) (l : List Char) :
    (trimMatchesChar t l).getLast? ≠ some t := by
  unfold trimMatchesChar
  intro h
  rw [List.getLast?_reverse] at h
  have := dropWhile_head?_pred (fun x => decide (x = t)) _ t h
  simp at this

/-- C8 (amended): path resolution returns an absolute override unchanged,
joins a relative override under the source root, and otherwise derives
`<source_root>/qr/<slug>.png`, where the slug algorithm is: trim surrounding
whitespace, delete every brace character, lower-case, replace every remaining
non-alphanumeric run with a single underscore, strip leading and trailing
underscores. -/
theorem C8_path_resolution :
    (∀ (src p marker : List Char), isAbsolutePath p = true →
      resolve_profile_path src (some p) marker = p)
    ∧ (∀ (src p marker : List Char), isAbsolutePath p = false →
      resolve_profile_path src (some p) marker = joinPath src p)
    ∧ (∀ (src marker : List Char), resolve_profile_path src none marker
        = joinPath (joinPath src (cs "qr")) (slug_from_marker marker ++ cs ".png"))
    ∧ (∀ marker : List Char, slug_from_marker marker = slugSpecAmended marker) := by
  refine ⟨?_, ?_, fun src marker => rfl, slug_eq_spec⟩
  · intro src p marker h
    simp [resolve_profile_path, h]
  · intro src p marker h
    simp [resolve_profile_path, h]

/-- C8, counterexample to the claim as stated: on the marker `{{A{B}}` the
code deletes the interior brace outright (slug `ab`), while the claim's
algorithm — strip the wrapping double braces, then replace every
non-alphanumeric run with a single underscore — turns it into an underscore
(slug `a_b`). -/
theorem C8_claim_counterexample :
    slug_from_marker (cs "\x7b\x7bA\x7bB\x7d\x7d") = cs "ab"
    ∧ slugSpecClaim (cs "\x7b\x7bA\x7bB\x7d\x7d") = cs "a_b"
    ∧ slug_from_marker (cs "\x7b\x7bA\x7bB\x7d\x7d")
        ≠ slugSpecClaim (cs "\x7b\x7bA\x7bB\x7d\x7d") := by
  have h1 : slug_from_marker (cs "\x7b\x7bA\x7bB\x7d\x7d") = cs "ab" := by
    simp only [cs]
    simp +decide [slug_from_marker, trimWs, trimMatchesChar, collapseLoop, onePass,
      containsDouble, Char.isAlphanum, Char.isAlpha, Char.isUpper, Char.isLower,
      Char.isDigit, Char.toLower, Char.ofNat, Char.isWhitespace]
  have h2 : slugSpecClaim (cs "\x7b\x7bA\x7bB\x7d\x7d") = cs "a_b" := by
    simp only [cs]
    simp +decide [slugSpecClaim, specCore, trimMatchesChar, List.isPrefixOf,
      List.isSuffixOf, Char.isAlphanum, Char.isAlpha, Char.isUpper, Char.isLower,
      Char.isDigit, Char.toLower, Char.ofNat]
  refine ⟨h1, h2, ?_⟩
  rw [h1, h2]
  decide

/-- C8 witness: concrete absolute, relative and derived-path resolutions. -/
theorem C8_path_resolution_witness :
    resolve_profile_path (cs "book/src") (some (cs "/opt/qr.png")) (cs "M") = cs "/opt/qr.png"
    ∧ resolve_profile_path (cs "book/src") (some (cs "custom/qr.png")) (cs "M")
        = joinPath (cs "book/src") (cs "custom/qr.png")
    ∧ resolve_profile_path (cs "book/src") none (cs "\x7b\x7bQR-MAIN\x7d\x7d")
        = joinPath (joinPath (cs "book/src") (cs "qr"))
            (slug_from_marker (cs "\x7b\x7bQR-MAIN\x7d\x7d") ++ cs ".png")
    ∧ slug_from_marker (cs "\x7b\x7bQR-MAIN\x7d\x7d")
        = slugSpecAmended (cs "\x7b\x7bQR-MAIN\x7d\x7d") :=
  ⟨C8_path_resolution.1 _ _ _ (by decide),
   C8_path_resolution.2.1 _ _ _ (by decide),
   C8_path_resolution.2.2.1 _ _,
   C8_path_resolution.2.2.2 _⟩

/-- C10: every slug consists only of lowercase ASCII letters, digits and
underscores, never contains two consecutive underscores, and never begins or
ends with an underscore. -/
theorem C10_slug_invariants (m : List Char) :
    (∀ c ∈ slug_from_marker m, (c.isLower || c.isDigit) = true ∨ c = '_')
    ∧ (slug_from_marker m).Chain' (fun a b => ¬(a = '_' ∧ b = '_'))
    ∧ (slug_from_marker m).head? ≠ some '_'
    ∧ (slug_from_marker m).getLast? ≠ some '_' := by
  rw [slug_eq_spec]
  show (∀ c ∈ trimMatchesChar '_' (specCore _), _) ∧ _
  refine ⟨?_, ?_, trimMatchesChar_head? '_' _, trimMatchesChar_getLast? '_' _⟩
  · intro c hc
    exact specCore_chars _ _ (le_refl _) c (mem_trimMatchesChar '_' _ c hc)
  · exact chain'_trimMatchesChar '_' _ (specCore_chain _ _ (le_refl _))

/-- C10 witness: the slug of `{{QR.CODE:Slide}}` is `qr_code_slide`; its
character `q` is covered by the alphabet invariant and its ends are not
underscores. -/
theorem C10_slug_invariants_witness :
    (('q'.isLower || 'q'.isDigit) = true ∨ 'q' = '_')
    ∧ (slug_from_marker (cs "\x7b\x7bQR.CODE:Slide\x7d\x7d")).head? ≠ some '_'
    ∧ (slug_from_marker (cs "\x7b\x7bQR.CODE:Slide\x7d\x7d")).getLast? ≠ some '_' := by
  have hv : slug_from_marker (cs "\x7b\x7bQR.CODE:Slide\x7d\x7d") = cs "qr_code_slide" := by
    simp only [cs]
    simp +decide [slug_from_marker, trimWs, trimMatchesChar, collapseLoop, onePass,
      containsDouble, Char.isAlphanum, Char.isAlpha, Char.isUpper, Char.isLower,
      Char.isDigit, Char.toLower, Char.ofNat, Char.isWhitespace]
  refine ⟨(C10_slug_invariants (cs "\x7b\x7bQR.CODE:Slide\x7d\x7d")).1 'q' ?_,
    (C10_slug_invariants (cs "\x7b\x7bQR.CODE:Slide\x7d\x7d")).2.2.1,
    (C10_slug_invariants (cs "\x7b\x7bQR.CODE:Slide\x7d\x7d")).2.2.2⟩
  rw [hv]
  decide

end MdbookQr
